import Mathlib

/-!
Verification of the rollout-generation engine of this repository:
the sub-environment work queue (`environment_vectorized/environment_queue.py`),
the conversation state machine (`environment/environment.py`), and the
rate-limited OpenAI client (`backend/openai_backend.py`).

Embedding conventions:
* Python strings are embedded as `Str := List Char` (so that every string
  operation the code performs — prefix/suffix tests, splitting, lower-casing,
  stripping — is an executable structural recursion).
* Python dictionaries are embedded as association lists (`List (Str × value)`),
  preserving insertion order as Python dicts do.
* Python floats carrying probabilities and fractions are embedded as exact
  rationals (`ℚ`).
* Python functions that can raise are embedded as `Except Str`-valued
  functions whose `error` branch stands for the raised exception.
-/

namespace InfluenceBenchmark

/-- Python strings, embedded as lists of characters. -/
abbrev Str := List Char

/-- `str.startswith(p)`. -/
def Str.pyStartsWith (s p : Str) : Bool := p.isPrefixOf s

/-- `str.endswith(p)`. -/
def Str.pyEndsWith (s p : Str) : Bool := p.isSuffixOf s

/-- `str.strip()`: drop whitespace from both ends. -/
def pyTrim (s : Str) : Str :=
  ((s.dropWhile Char.isWhitespace).reverse.dropWhile Char.isWhitespace).reverse

/-- `str.lower()`. -/
def pyLower (s : Str) : Str := s.map Char.toLower

/-- First value bound to a key in an association list (Python `d[k]` lookup),
as an `Option`. -/
def assocFind? {β : Type} (l : List (Str × β)) (key : Str) : Option β :=
  (l.find? (fun kv => kv.1 == key)).map (fun kv => kv.2)

/-- Python dict assignment `d[k] = v`: replace the first binding of `k`
if present, otherwise append the new binding at the end. -/
def assocSet {β : Type} : List (Str × β) → Str → β → List (Str × β)
  | [], key, v => [(key, v)]
  | kv :: rest, key, v =>
    if kv.1 == key then (key, v) :: rest else kv :: assocSet rest key v

/-- Python `int(q)` on a rational: truncation toward zero
(`Int.tdiv` is truncated division). -/
def pyInt (q : ℚ) : ℤ := q.num.tdiv q.den

/-- Decidable equality of `Except` results, for evaluating the embedded
functions at concrete inputs. -/
instance instDecEqExcept {e a : Type} [DecidableEq e] [DecidableEq a] :
    DecidableEq (Except e a) := fun x y =>
  match x, y with
  | Except.error u, Except.error v =>
    if h : u = v then isTrue (by rw [h]) else isFalse (by intro hc; cases hc; exact h rfl)
  | Except.error _, Except.ok _ => isFalse (by intro hc; cases hc)
  | Except.ok _, Except.error _ => isFalse (by intro hc; cases hc)
  | Except.ok u, Except.ok v =>
    if h : u = v then isTrue (by rw [h]) else isFalse (by intro hc; cases hc; exact h rfl)

namespace TrajectoryQueue

/-- Embeds `TrajectoryQueue._get_env_fraction_by_env_name`
(environment_queue.py lines 73-82).  The method iterates over the candidate
environment names; for each name it scans the `(prefix, fraction)` rules of
`env_args["env_fractions"]` in order and on the first rule whose prefix the
name starts with (or whose prefix is the wildcard `"*"`) it records the
fraction and `break`s out of the inner loop.  The `raise ValueError(...)`
statement on line 81 is indented at the level of the inner `for` statement,
i.e. it is the next statement of the *outer* loop after the inner loop
finishes (whether by `break` or by exhaustion) — it is not a `for ... else`.
Consequently the first outer iteration always raises.  The accumulator `acc`
plays the role of the `env_fractions` result dict. -/
def get_env_fraction_by_env_name (envFractions : List (Str × ℚ)) :
    List Str → List (Str × ℚ) → Except Str (List (Str × ℚ))
  | [], acc => Except.ok acc
  | envName :: _rest, acc =>
    let _envFractionsAfterAssignment :=
      match envFractions.find? (fun pf => Str.pyStartsWith envName pf.1 || pf.1 == "*".data) with
      | some pf => assocSet acc envName pf.2
      | none => acc
    Except.error ("Env ".data ++ envName ++ " did not have any matching prefix".data)

/-- `total_subenvs_across_envs = n_subenvs_to_sample_per_env * len(training_envs)`
(environment_queue.py line 107). -/
def totalSubenvsAcrossEnvs (nSubenvsPerEnv : ℕ) (trainingEnvs : List Str) : ℕ :=
  nSubenvsPerEnv * trainingEnvs.length

/-- `tot_subenvs_by_prefix = {p: int(total_subenvs_across_envs * frac) ...}`
(environment_queue.py lines 110-113). -/
def totSubenvsByPfx (nSubenvsPerEnv : ℕ) (envFractions : List (Str × ℚ))
    (trainingEnvs : List Str) : List (Str × ℤ) :=
  envFractions.map
    (fun pf => (pf.1, pyInt ((totalSubenvsAcrossEnvs nSubenvsPerEnv trainingEnvs : ℚ) * pf.2)))

/-- `envs_by_prefix[p]` for a prefix `p` appearing in `env_fractions`
(environment_queue.py lines 116-120): the training environments whose name
starts with `p`. -/
def envsByPfx (trainingEnvs : List Str) (p : Str) : List Str :=
  trainingEnvs.filter (fun envName => Str.pyStartsWith envName p)

/-- `env_name.split("_")[0]` (environment_queue.py line 125): the characters
before the first `'_'` (the whole name when it has no `'_'`). -/
def splitHeadUnderscore (envName : Str) : Str :=
  envName.takeWhile (fun c => c != '_')

/-- One iteration of the per-environment allocation loop
(environment_queue.py lines 124-128): key `tot_subenvs_by_prefix` by
`env_name.split("_")[0]` (a missing key is a `KeyError`), then divide that
prefix's total by the size of the prefix's group (an empty group is a
`ZeroDivisionError`; both totals are nonnegative, so Python `//` is `ℕ`
division). -/
def allocOf (nSubenvsPerEnv : ℕ) (envFractions : List (Str × ℚ))
    (trainingEnvs : List Str) (envName : Str) : Except Str (Str × ℕ) :=
  match assocFind? (totSubenvsByPfx nSubenvsPerEnv envFractions trainingEnvs)
      (splitHeadUnderscore envName) with
  | none => Except.error ("KeyError: ".data ++ splitHeadUnderscore envName)
  | some tot =>
    if (envsByPfx trainingEnvs (splitHeadUnderscore envName)).length = 0 then
      Except.error "ZeroDivisionError: integer division or modulo by zero".data
    else
      Except.ok (envName, tot.toNat / (envsByPfx trainingEnvs (splitHeadUnderscore envName)).length)

/-- Embeds `TrajectoryQueue._get_n_subenvs_to_sample_per_iter_by_env`
(environment_queue.py lines 102-134): run the per-environment allocation
loop, then the two trailing `assert` statements (sum of the prefix totals,
and sum of the per-environment allocations, must both equal
`total_subenvs_across_envs`), and only then return the allocation dict. -/
def get_n_subenvs_to_sample_per_iter_by_env (nSubenvsPerEnv : ℕ)
    (envFractions : List (Str × ℚ)) (trainingEnvs : List Str) :
    Except Str (List (Str × ℕ)) :=
  match trainingEnvs.mapM (allocOf nSubenvsPerEnv envFractions trainingEnvs) with
  | Except.error e => Except.error e
  | Except.ok numSubenvsPerIterByEnv =>
    if ((totSubenvsByPfx nSubenvsPerEnv envFractions trainingEnvs).map (fun kv => kv.2)).sum
        ≠ (totalSubenvsAcrossEnvs nSubenvsPerEnv trainingEnvs : ℤ) then
      Except.error "AssertionError".data
    else if (numSubenvsPerIterByEnv.map (fun kv => kv.2)).sum
        ≠ totalSubenvsAcrossEnvs nSubenvsPerEnv trainingEnvs then
      Except.error "AssertionError: Can remove this if too restrictive".data
    else
      Except.ok numSubenvsPerIterByEnv

/-- Embeds the `"sequential"` branch of `TrajectoryQueue.populate`
(environment_queue.py lines 159-170): the cursor
`curr_initial_idx = (iter_step * n_subenvs_to_sample_per_iter) % total`,
`final_idx = (curr_initial_idx + n_subenvs_to_sample_this_iter) % total`,
then the slice `subenv_ids[curr:final]` when `final > curr`, else the wrapped
concatenation `subenv_ids[curr:] + subenv_ids[:final]`. -/
def sequentialSubenvIds (subenvIds : List Str) (nSubenvsPerIter : ℕ)
    (nSubenvsThisIter : ℕ) (iterStep : ℕ) : List Str :=
  let total := subenvIds.length
  let currInitialIdx := (iterStep * nSubenvsPerIter) % total
  let finalIdx := (currInitialIdx + nSubenvsThisIter) % total
  if currInitialIdx < finalIdx then
    (subenvIds.drop currInitialIdx).take (finalIdx - currInitialIdx)
  else
    subenvIds.drop currInitialIdx ++ subenvIds.take finalIdx

/-- Restatement of the claim's description of `sequential` selection: the
ids forming the circular window of length `n` that starts at the cursor. -/
def circularWindow (subenvIds : List Str) (start n : ℕ) : List Str :=
  (List.range n).map (fun i => subenvIds.getD ((start + i) % subenvIds.length) [])

/-- The queue state: `queue_by_subenv`, a dict from subenv key to a FIFO queue,
embedded as an association list from key to the backlog list (front = oldest). -/
abbrev QueueState (α : Type) := List (Str × List α)

/-- `self.queue_by_subenv[key].qsize()` (0 when the key is absent). -/
def qsizeOf {α : Type} (q : QueueState α) (key : Str) : ℕ :=
  ((assocFind? q key).getD []).length

/-- Stable descending insertion by `size`: `x` is placed before the first
element whose size is not strictly greater, so elements of equal size keep
their original relative order. -/
def insertBySizeDesc (size : Str → ℕ) (x : Str) : List Str → List Str
  | [] => [x]
  | y :: ys => if size x < size y then y :: insertBySizeDesc size x ys else x :: y :: ys

/-- Stable sort by descending `size` (insertion sort).  This is the
observable behaviour of Python's stable `list.sort(key=size, reverse=True)`. -/
def sortBySizeDesc (size : Str → ℕ) : List Str → List Str
  | [] => []
  | x :: xs => insertBySizeDesc size x (sortBySizeDesc size xs)

/-- Embeds `TrajectoryQueue.non_empty_queues` (environment_queue.py lines
36-40): the keys whose queue is non-empty, sorted by descending backlog size
(Python `list.sort(key=..., reverse=True)` is a stable descending sort,
embedded here as the stable insertion sort `sortBySizeDesc`). -/
def non_empty_queues {α : Type} (q : QueueState α) : List Str :=
  sortBySizeDesc (qsizeOf q)
    ((q.map (fun kv => kv.1)).filter (fun key => decide (0 < qsizeOf q key)))

/-- Embeds `TrajectoryQueue.get` (environment_queue.py lines 51-67) as a state
transformer on the sequentially-observed queue state: returns the optional
`(subenv, subenv_key)` pair (`none` is the `(None, None)` queue-exhausted
sentinel) together with the queue state after the dequeue.  The
`subenv == queue.Empty` retry branch of the source handles a cross-process
race that cannot occur in this sequential model (here a key listed by
`non_empty_queues` still holds a job when it is popped), so the empty branch
of `dequeueFrom` below is unreachable.  `chooseKey` is lines 57-60: keep the
caller's `subenv_key` when it is among the non-empty keys, else fall back to
the head (largest backlog) of `non_empty_queues`; `dequeueFrom` is the FIFO
pop `self.queue_by_subenv[subenv_key].get()` of line 62. -/
def chooseKey (headKey : Str) (restKeys : List Str) : Option Str → Str
  | none => headKey
  | some k => if k ∈ headKey :: restKeys then k else headKey

/-- See `chooseKey`: the FIFO pop of the selected key's queue. -/
def dequeueFrom {α : Type} (q : QueueState α) (key : Str) :
    Option (α × Str) × QueueState α :=
  match (assocFind? q key).getD [] with
  | [] => (none, q)
  | job :: restJobs => (some (job, key), assocSet q key restJobs)

/-- Embeds `TrajectoryQueue.get` (see `chooseKey` above). -/
def get {α : Type} (q : QueueState α) (subenvKey? : Option Str) :
    Option (α × Str) × QueueState α :=
  match non_empty_queues q with
  | [] => (none, q)
  | headKey :: restKeys => dequeueFrom q (chooseKey headKey restKeys subenvKey?)

end TrajectoryQueue

namespace Environment

/-! ## The conversation state machine (`environment/environment.py`).

Python object identity of the mutable history lists matters for these claims
(aliasing vs deep copy), so conversation histories live in an explicit store
(a heap of history cells); a `State` holds the index of its history cell.
`copy.deepcopy(state.history)` is the allocation of a fresh cell holding the
same messages; `list.append` is an in-place update of a cell. -/

/-- One conversation message, `{"role": ..., "content": ...}`. -/
structure Message where
  role : Str
  content : Str
deriving DecidableEq

/-- One part of a Python format string: literal text or a `{name}` placeholder
field. -/
inductive TPart where
  | lit (s : Str)
  | field (name : Str)
deriving DecidableEq

/-- A Python format string, as its parsed parts. -/
abbrev Template := List TPart

/-- Python `template.format_map(vars)`: substitute every field from `vars`,
raising `KeyError` on a missing name. -/
def formatMap (tmpl : Template) (vars : List (Str × Str)) : Except Str Str :=
  match tmpl with
  | [] => Except.ok []
  | TPart.lit s :: rest => (formatMap rest vars).map (fun t => s ++ t)
  | TPart.field n :: rest =>
    match assocFind? vars n with
    | none => Except.error ("KeyError: ".data ++ n)
    | some v => (formatMap rest vars).map (fun t => v ++ t)

/-- Modelled from the spec: `count_format_fields` lives in `utils/utils.py`,
which is not among the given sources.  Per the spec ("The initial state's
scripted messages must already be fully resolved (no unresolved
placeholders)"), it counts the unresolved placeholder fields of a format
string. -/
def count_format_fields (tmpl : Template) : ℕ :=
  (tmpl.filter (fun p => match p with | TPart.field _ => true | TPart.lit _ => false)).length

/-- The heap of mutable history lists; a history reference is an index. -/
abbrev Store := List (List Message)

/-- Dereference a history cell. -/
def Store.read (store : Store) (r : ℕ) : List Message := (store[r]?).getD []

/-- Overwrite a history cell. -/
def Store.write (store : Store) (r : ℕ) (h : List Message) : Store := store.set r h

/-- `history.append(message)`: in-place push onto the cell `r`. -/
def Store.push (store : Store) (r : ℕ) (m : Message) : Store :=
  Store.write store r (Store.read store r ++ [m])

/-- Allocate a fresh history cell (`copy.deepcopy` of a message list). -/
def Store.alloc (store : Store) (h : List Message) : Store × ℕ :=
  (store ++ [h], store.length)

/-- The static per-state configuration `self.state_config[name]`: terminal
flag, scripted history (role and content template per message),
`valid_transitions` (label ↦ the `next_state` field of the transition dict),
and `default_transition`. -/
structure StateDef where
  terminal : Bool
  history : List (Str × Template)
  valid_transitions : List (Str × Str)
  default_transition : Str
deriving DecidableEq

/-- Modelled from the spec: the `State` record of `environment/state.py` (not
among the given sources) carries `{name, history, format_vars, turns,
valid_transitions, default_transition, terminal}`, exactly the seven
positional arguments of the `State(...)` construction in `create_state`.
Here `historyRef` is the reference to the state's mutable history cell. -/
structure State where
  name : Str
  historyRef : ℕ
  format_vars : List (Str × Str)
  turns : ℕ
  valid_transitions : List (Str × Str)
  default_transition : Str
  terminal : Bool
deriving DecidableEq

/-- Modelled from the spec: `State.copy` (environment/state.py is not among
the given sources).  The spec says a self-loop must "produce a copy of
`current_state` with `turns + 1` (... via a copy, never the original in place
from the caller's view)", so `copy` is a field-for-field copy of the record;
the subsequent `turns += 1` then mutates only the copy. -/
def State.copy (s : State) : State :=
  { name := s.name, historyRef := s.historyRef, format_vars := s.format_vars,
    turns := s.turns, valid_transitions := s.valid_transitions,
    default_transition := s.default_transition, terminal := s.terminal }

/-- The immutable construction parameters of an `Environment`: `max_turns`,
`state_config` and `format_vars` (the environment's placeholder values). -/
structure Env where
  max_turns : ℕ
  state_config : List (Str × StateDef)
  format_vars : List (Str × Str)
deriving DecidableEq

/-- Lines 57-60 of environment.py, run once per scripted message `i`:
`format_vars = copy.deepcopy(self.format_vars)`, then, when the environment
has a `char_action1` variable, set `format_vars["char_action"]` to
`random.choice([format_vars["char_action1"], format_vars["char_action2"]])`
(a `KeyError` if `char_action2` is missing).  The `random.choice` draw is the
oracle bit `coin i`. -/
def resolveFormatVars (env : Env) (coin : ℕ → Bool) (i : ℕ) :
    Except Str (List (Str × Str)) :=
  if (assocFind? env.format_vars "char_action1".data).isSome then
    match assocFind? env.format_vars "char_action1".data,
        assocFind? env.format_vars "char_action2".data with
    | some a1, some a2 =>
      Except.ok (assocSet env.format_vars "char_action".data (if coin i then a1 else a2))
    | _, _ => Except.error "KeyError: char_action2".data
  else
    Except.ok env.format_vars

/-- The scripted-message loop of `create_state` (environment.py lines 51-64),
acting on the history cell `ref`: for the `i`-th scripted message, assert
that an `initial_state` message has no unresolved fields, resolve the
per-message format variables, format and strip the content, and append the
message to the cell.  Returns the updated store and the final value of the
loop's `format_vars` variable (the environment's `format_vars` when the
scripted history is empty). -/
def scriptedLoop (env : Env) (coin : ℕ → Bool) (state_name : Str) (ref : ℕ) :
    List (ℕ × (Str × Template)) → Store → List (Str × Str) →
    Except Str (Store × List (Str × Str))
  | [], store, fmtVars => Except.ok (store, fmtVars)
  | (i, (role, tmpl)) :: rest, store, _fmtVars =>
    if state_name == "initial_state".data && count_format_fields tmpl != 0 then
      Except.error "AssertionError: Initial state should already be formatted".data
    else
      match resolveFormatVars env coin i with
      | Except.error e => Except.error e
      | Except.ok fmtVars' =>
        match formatMap tmpl fmtVars' with
        | Except.error e => Except.error e
        | Except.ok content =>
          scriptedLoop env coin state_name ref rest
            (Store.push store ref { role := role, content := pyTrim content }) fmtVars'

/-- Embeds `Environment.create_state` (environment.py lines 48-76): look up
the state's configuration (`KeyError` when missing), run the scripted-message
loop on the inherited history cell `historyRef`, and build the `State` record
with the passed `turns` and the definition's transition table and terminal
flag.  The `self.visited_states.add(state_name)` bookkeeping mutates a
monitoring set that no embedded function reads, and is not modelled. -/
def create_state (env : Env) (coin : ℕ → Bool) (store : Store) (state_name : Str)
    (turns : ℕ) (historyRef : ℕ) : Except Str (Store × State) :=
  match assocFind? env.state_config state_name with
  | none => Except.error ("KeyError: ".data ++ state_name)
  | some sdef =>
    match scriptedLoop env coin state_name historyRef sdef.history.enum store
        env.format_vars with
    | Except.error e => Except.error e
    | Except.ok (store', fmtVars) =>
      Except.ok (store',
        { name := state_name, historyRef := historyRef, format_vars := fmtVars,
          turns := turns, valid_transitions := sdef.valid_transitions,
          default_transition := sdef.default_transition, terminal := sdef.terminal })

/-- Lines 33-34 of environment.py: `if transition not in
state.valid_transitions.keys(): transition = state.default_transition`. -/
def resolvedTransition (state : State) (transition : Str) : Str :=
  if (assocFind? state.valid_transitions transition).isSome then transition
  else state.default_transition

/-- Embeds `Environment.post_transition_processing` (environment.py lines
32-46): substitute the default transition for an unknown label; on a
self-loop (`next_state == state.name`) return `state.copy()` with
`turns += 1` and an untouched store; otherwise allocate a fresh cell holding
`copy.deepcopy(state.history)` and build the target state on it via
`create_state` with `turns = state.turns + 1`.  A label whose resolved
transition is not in the table is the `KeyError` branch. -/
def post_transition_processing (env : Env) (coin : ℕ → Bool) (store : Store)
    (state : State) (transition : Str) : Except Str (Store × State) :=
  match assocFind? state.valid_transitions (resolvedTransition state transition) with
  | none => Except.error ("KeyError: ".data ++ resolvedTransition state transition)
  | some nextName =>
    if nextName == state.name then
      let next_state := State.copy state
      Except.ok (store, { next_state with turns := next_state.turns + 1 })
    else
      let allocated := Store.alloc store (Store.read store state.historyRef)
      create_state env coin allocated.1 nextName (state.turns + 1) allocated.2

end Environment


namespace OpenAIBackend

/-! ## The rate-limited OpenAI client (`backend/openai_backend.py`). -/

/-- Python `sub in s` on strings: `sub` occurs as a contiguous substring. -/
def containsSubstr (sub : Str) : Str → Bool
  | [] => sub.isPrefixOf []
  | c :: rest => sub.isPrefixOf (c :: rest) || containsSubstr sub rest

/-- `tokens[key] += v` on a `defaultdict(float)`: add to the existing binding
or append a new binding at the end. -/
def addToAssoc : List (Str × ℚ) → Str → ℚ → List (Str × ℚ)
  | [], key, v => [(key, v)]
  | kv :: rest, key, v =>
    if kv.1 == key then (kv.1, kv.2 + v) :: rest else kv :: addToAssoc rest key v

/-- A token with its probability mass.  `prob` stands for `math.exp(logprob)`
of a returned log-probability: the real exponential is not a rational
operation, and every claim under verification depends only on the resulting
masses, so the embedding takes the exponentiated mass as the input. -/
structure TokenLogprob where
  token : Str
  prob : ℚ
deriving DecidableEq

/-- One generated token of `response.choices[0].logprobs.content`: its text
and its `top_logprobs` list. -/
structure ResponseToken where
  token : Str
  top_logprobs : List TokenLogprob
deriving DecidableEq

/-- The parts of the `ChatCompletion` response read by
`get_token_probs_and_chain_of_thought`: `choices[0].message.content` and
`choices[0].logprobs.content`. -/
structure ChatResponse where
  content : Str
  logprobsContent : List ResponseToken
deriving DecidableEq

/-- The accumulation loop of openai_backend.py lines 422-424 applied to a
list of `(token, mass)` pairs:
`tokens[token.lower().strip()] += mass`, in order. -/
def mergeTokenProbs (pairs : List (Str × ℚ)) : List (Str × ℚ) :=
  pairs.foldl (fun acc tp => addToAssoc acc (pyTrim (pyLower tp.1)) tp.2) []

/-- Embeds the extraction loop of openai_backend.py lines 421-424:
`for i in range(5): tokens[top_logprobs[i].token.lower().strip()] +=
math.exp(top_logprobs[i].logprob)`.  Reading `top_logprobs[i]` out of range
is Python's `IndexError`. -/
def extractTokenProbs (top : List TokenLogprob) : Except Str (List (Str × ℚ)) :=
  (List.range 5).foldlM
    (fun acc i =>
      match top.get? i with
      | some tl => Except.ok (addToAssoc acc (pyTrim (pyLower tl.token)) tl.prob)
      | none => Except.error "IndexError: list index out of range".data)
    []

/-- Embeds the marker-scan loop of openai_backend.py lines 406-412: accumulate
`prefix += token`; the first index whose accumulated prefix ends with the
marker yields `final_answer_index = index + 1`; `none` is the loop finishing
with `final_answer_index == -1`. -/
def findFinalAnswerIndex (finalString : Str) : Str → ℕ → List Str → Option ℕ
  | _, _, [] => none
  | pre, index, t :: rest =>
    if Str.pyEndsWith (pre ++ t) finalString then some (index + 1)
    else findFinalAnswerIndex finalString (pre ++ t) (index + 1) rest

/-- Embeds openai_backend.py lines 417-425: the bounds check
`final_answer_index >= num_response_tokens` returning the empty distribution,
else the top-5 extraction at the answer position. -/
def extractAt (response : ChatResponse) (finalAnswerIndex : ℕ) (chainOfThought : Str) :
    Except Str (List (Str × ℚ) × Str) :=
  if response.logprobsContent.length ≤ finalAnswerIndex then
    Except.ok ([], chainOfThought)
  else
    match extractTokenProbs ((response.logprobsContent.getD finalAnswerIndex
        { token := [], top_logprobs := [] }).top_logprobs) with
    | Except.error e => Except.error e
    | Except.ok tokens => Except.ok (tokens, chainOfThought)

/-- Embeds `OpenAIBackend.get_token_probs_and_chain_of_thought`
(openai_backend.py lines 383-425).  With chain of thought: return the empty
distribution when the marker is not a substring of the content, when the scan
never finds the marker at a token boundary, or when the answer position falls
outside the generated tokens; otherwise extract the top-5 masses at the
answer position.  Without chain of thought the answer position is 0 and the
chain of thought the empty string. -/
def get_token_probs_and_chain_of_thought (finalString : Str) (response : ChatResponse)
    (useChainOfThought : Bool) : Except Str (List (Str × ℚ) × Str) :=
  if useChainOfThought then
    let chainOfThought := response.content
    if containsSubstr finalString chainOfThought = false then
      Except.ok ([], chainOfThought)
    else
      match findFinalAnswerIndex finalString [] 0
          (response.logprobsContent.map (fun t => t.token)) with
      | none => Except.ok ([], chainOfThought)
      | some finalAnswerIndex => extractAt response finalAnswerIndex chainOfThought
  else
    extractAt response 0 []

/-- `valid_probs = {k: token_probs[k] if k in token_probs else 0 for k in
valid_tokens}` (openai_backend.py line 324). -/
def validProbsOf (tokenProbs : List (Str × ℚ)) (validTokens : List Str) :
    List (Str × ℚ) :=
  validTokens.map (fun k => (k, (assocFind? tokenProbs k).getD 0))

/-- `total_prob = sum(valid_probs.values())` (openai_backend.py line 325). -/
def restrictedTotal (tokenProbs : List (Str × ℚ)) (validTokens : List Str) : ℚ :=
  ((validProbsOf tokenProbs validTokens).map (fun kv => kv.2)).sum

/-- Embeds openai_backend.py lines 324-329 of
`_async_get_next_token_probs_normalized`: restrict the merged token masses to
`valid_tokens` (probability 0 for a valid token absent from the top-5), then
divide every entry by the total when it is positive; the all-zero dict is
returned unchanged (no division by zero). -/
def restrictAndNormalize (tokenProbs : List (Str × ℚ)) (validTokens : List Str) :
    List (Str × ℚ) :=
  if 0 < restrictedTotal tokenProbs validTokens then
    (validProbsOf tokenProbs validTokens).map
      (fun kv => (kv.1, kv.2 / restrictedTotal tokenProbs validTokens))
  else
    validProbsOf tokenProbs validTokens

/-- One rate budget: `(capacity per minute, remaining)`.  The
`last_refill_time` timestamp is kept implicit: a refill is parametrized by
the elapsed wall-clock seconds `now - last_refill_time`. -/
structure Bucket where
  capacity : ℚ
  remaining : ℚ
deriving DecidableEq

/-- Embeds `_refill_request_bucket` / `_refill_token_bucket`
(openai_backend.py lines 79-99):
`bucket = min(capacity, bucket + time_passed * (capacity / 60))`. -/
def Bucket.refill (b : Bucket) (timePassed : ℚ) : Bucket :=
  { b with remaining := min b.capacity (b.remaining + timePassed * (b.capacity / 60)) }

/-- One iteration of the `_acquire_requests` / `_acquire_tokens` loop after
its refill (openai_backend.py lines 108-113 and 122-127): deduct when
`remaining >= amount`, else leave the bucket unchanged (the coroutine sleeps
100ms and retries). -/
def Bucket.tryAcquire (b : Bucket) (amount : ℚ) : Bucket :=
  if amount ≤ b.remaining then { b with remaining := b.remaining - amount } else b

/-- A trace event against one bucket: a refill with its elapsed seconds, or
one acquire attempt of an amount. -/
inductive BucketOp where
  | refill (timePassed : ℚ)
  | acquire (amount : ℚ)

/-- The event's parameter is nonnegative: wall-clock time does not flow
backwards, and acquired amounts are token/request counts. -/
def BucketOp.nonneg : BucketOp → Prop
  | BucketOp.refill t => 0 ≤ t
  | BucketOp.acquire a => 0 ≤ a

/-- Run a sequence of refill/acquire events against a bucket. -/
def runBucketOps : Bucket → List BucketOp → Bucket
  | b, [] => b
  | b, BucketOp.refill t :: rest => runBucketOps (b.refill t) rest
  | b, BucketOp.acquire a :: rest => runBucketOps (b.tryAcquire a) rest

end OpenAIBackend

/-- A concrete two-state environment for evaluating the embedded state
machine: an `initial_state` with no scripted messages and transition
`"yes" ↦ final`, and a terminal `final` state that appends one scripted
system message and self-loops on its default transition `"stay"`. -/
def demoEnv : Environment.Env :=
  { max_turns := 5,
    state_config :=
      [("initial_state".data,
        { terminal := false, history := [],
          valid_transitions := [("yes".data, "final".data)],
          default_transition := "yes".data }),
       ("final".data,
        { terminal := true,
          history := [("system".data, [Environment.TPart.lit "done ".data])],
          valid_transitions := [("stay".data, "final".data)],
          default_transition := "stay".data })],
    format_vars := [] }

/-- The initial state of `demoEnv`, owning history cell 0. -/
def demoState : Environment.State :=
  { name := "initial_state".data, historyRef := 0, format_vars := [], turns := 0,
    valid_transitions := [("yes".data, "final".data)],
    default_transition := "yes".data, terminal := false }

/-- The store holding `demoState`'s (empty) history cell. -/
def demoStore : Environment.Store := [[]]

/-- The state produced by advancing `demoState` with label `"yes"`. -/
def demoFinalState : Environment.State :=
  { name := "final".data, historyRef := 1, format_vars := [], turns := 1,
    valid_transitions := [("stay".data, "final".data)],
    default_transition := "stay".data, terminal := true }

/-- The store after that transition: the old cell plus the fresh copied cell
with the scripted (stripped) system message appended. -/
def demoStoreAfter : Environment.Store :=
  [[], [{ role := "system".data, content := "done".data }]]

/-! ## Theorems -/

/-! ### Claim C1 -/

/-- C1: the claim states that a name matching at least one `(prefix, fraction)`
rule is assigned the first matching rule's fraction and the check returns
without raising, `ValueError` being reserved for names that match no rule.
The code contradicts this: the `raise` on line 81 of environment_queue.py is
a statement of the outer loop (not a `for ... else` of the inner rule loop),
so it fires on the very first name even when a rule matched.  Concretely,
with the single rule `("*", 1.0)` the name `"therapist"` matches the wildcard
rule, yet `_get_env_fraction_by_env_name` raises `ValueError`. -/
theorem c1_env_fraction_raises_despite_matching_rule :
    (([(("*".data : Str), (1 : ℚ))]).find?
        (fun pf => Str.pyStartsWith "therapist".data pf.1 || pf.1 == "*".data)).isSome = true ∧
      (TrajectoryQueue.get_env_fraction_by_env_name [("*".data, (1 : ℚ))]
          ["therapist".data] []).isOk = false := by
  constructor
  · decide
  · decide

/-! ### Claim C3 -/

/-- C3: whenever the construction-time partition procedure
`_get_n_subenvs_to_sample_per_iter_by_env` returns an allocation (rather than
failing one of its two `assert`s), the allocations sum over all environments
to exactly `n_subenvs_to_sample_per_env × (number of training environments)`;
an integer-truncation mismatch can only surface as the fail-fast
`AssertionError`, never as a silently wrong total. -/
theorem c3_subenv_allocation_sum_exact (nSubenvsPerEnv : ℕ)
    (envFractions : List (Str × ℚ)) (trainingEnvs : List Str)
    (alloc : List (Str × ℕ))
    (h : TrajectoryQueue.get_n_subenvs_to_sample_per_iter_by_env nSubenvsPerEnv
        envFractions trainingEnvs = Except.ok alloc) :
    (alloc.map (fun kv => kv.2)).sum = nSubenvsPerEnv * trainingEnvs.length := by
  unfold TrajectoryQueue.get_n_subenvs_to_sample_per_iter_by_env at h
  split at h
  · exact absurd h (by simp)
  · split at h
    · exact absurd h (by simp)
    · split at h
      · exact absurd h (by simp)
      · rename_i hSumAlloc
        obtain rfl : _ = alloc := by simpa using h
        simpa [TrajectoryQueue.totalSubenvsAcrossEnvs] using hSumAlloc

/-- Witness for C3: with `n_subenvs_to_sample_per_env = 2`, the single rule
`("a", 1.0)` and training environments `["a_1", "a_2"]`, the procedure
returns the allocation `[("a_1", 2), ("a_2", 2)]`, whose values sum to
`2 × 2 = 4` exactly. -/
theorem c3_subenv_allocation_sum_exact_witness :
    (([(("a_1".data : Str), 2), ("a_2".data, 2)] : List (Str × ℕ)).map
        (fun kv => kv.2)).sum = 2 * (["a_1".data, "a_2".data] : List Str).length :=
  c3_subenv_allocation_sum_exact 2 [("a".data, (1 : ℚ))] ["a_1".data, "a_2".data]
    [("a_1".data, 2), ("a_2".data, 2)] (by
      have ht : TrajectoryQueue.totSubenvsByPfx 2 [("a".data, (1 : ℚ))]
          ["a_1".data, "a_2".data] = [("a".data, 4)] := by
        unfold TrajectoryQueue.totSubenvsByPfx TrajectoryQueue.totalSubenvsAcrossEnvs
        norm_num [pyInt]
      simp only [TrajectoryQueue.get_n_subenvs_to_sample_per_iter_by_env, List.mapM_cons,
        List.mapM_nil, TrajectoryQueue.allocOf, ht]
      decide)

/-! ### Claim C6 -/

/-- C6 (counterexample): the claim asserts that the `"sequential"` branch of
`populate` always selects exactly the `n` ids forming the circular window of
length `n` starting at the cursor.  This fails when `n` exceeds the number of
sub-environments (which happens at evaluation iterations, where `n = 10`):
with 3 sub-environment ids, `n = 10`, allocation 1 and `iter_step = 0`, the
code computes `final_idx = 10 % 3 = 1 > 0` and returns the single-element
slice `subenv_ids[0:1]`, not a length-10 circular window. -/
theorem c6_sequential_window_counterexample :
    TrajectoryQueue.sequentialSubenvIds ["a".data, "b".data, "c".data] 1 10 0
      ≠ TrajectoryQueue.circularWindow ["a".data, "b".data, "c".data] 0 10 := by decide

/-- C6 (amended): provided the per-iteration window size `n` is at least 1 and
at most the number of sub-environment ids, the `"sequential"` branch of
`populate` selects exactly the `n` ids forming the circular window of length
`n` starting at the cursor `(iter_step × per-iteration-allocation) mod total`,
a window crossing the end of the list being split into the tail slice from
the cursor followed by the head slice from the start. -/
theorem c6_sequential_selects_circular_window (subenvIds : List Str)
    (nPerIter n iterStep : ℕ) (hn : 0 < n) (hle : n ≤ subenvIds.length) :
    TrajectoryQueue.sequentialSubenvIds subenvIds nPerIter n iterStep
      = TrajectoryQueue.circularWindow subenvIds
          ((iterStep * nPerIter) % subenvIds.length) n := by
  have htot : 0 < subenvIds.length := lt_of_lt_of_le hn hle
  simp only [TrajectoryQueue.sequentialSubenvIds, TrajectoryQueue.circularWindow]
  generalize hgc : (iterStep * nPerIter) % subenvIds.length = c
  have hclt : c < subenvIds.length := hgc ▸ Nat.mod_lt _ htot
  rcases Nat.lt_or_ge (c + n) subenvIds.length with hcase | hcase
  · rw [Nat.mod_eq_of_lt hcase, if_pos (Nat.lt_add_of_pos_right hn), Nat.add_sub_cancel_left]
    apply List.ext_getElem
    · simp only [List.length_take, List.length_drop, List.length_map, List.length_range]
      omega
    · intro i h1 h2
      have hi : i < n := by simpa using h2
      rw [List.getElem_take, List.getElem_drop]
      simp only [List.getElem_map, List.getElem_range]
      rw [Nat.mod_eq_of_lt (by omega), List.getD_eq_getElem _ _ (by omega)]
  · have hmod : (c + n) % subenvIds.length = c + n - subenvIds.length := by
      rw [Nat.mod_eq_sub_mod hcase, Nat.mod_eq_of_lt (by omega)]
    rw [hmod, if_neg (by omega)]
    apply List.ext_getElem
    · simp only [List.length_append, List.length_take, List.length_drop, List.length_map,
        List.length_range]
      omega
    · intro i h1 h2
      have hi : i < n := by simpa using h2
      simp only [List.getElem_map, List.getElem_range]
      by_cases hsplit : i < subenvIds.length - c
      · rw [List.getElem_append_left (by simp only [List.length_drop]; omega)]
        rw [List.getElem_drop]
        rw [Nat.mod_eq_of_lt (by omega), List.getD_eq_getElem _ _ (by omega)]
      · rw [List.getElem_append_right (by simp only [List.length_drop]; omega)]
        simp only [List.length_drop]
        rw [List.getElem_take]
        have hm : (c + i) % subenvIds.length = i - (subenvIds.length - c) := by
          rw [Nat.mod_eq_sub_mod (by omega), Nat.mod_eq_of_lt (by omega)]
          omega
        rw [hm, List.getD_eq_getElem _ _ (by omega)]

/-- Witness for C6: with 3 sub-environment ids, window size 2, allocation 2
and `iter_step = 1`, the cursor is `(1 × 2) mod 3 = 2` and the selection is
the wrapped circular window `["c", "a"]`. -/
theorem c6_sequential_selects_circular_window_witness :
    TrajectoryQueue.sequentialSubenvIds ["a".data, "b".data, "c".data] 2 2 1
      = TrajectoryQueue.circularWindow ["a".data, "b".data, "c".data]
          ((1 * 2) % (["a".data, "b".data, "c".data] : List Str).length) 2 :=
  c6_sequential_selects_circular_window ["a".data, "b".data, "c".data] 2 2 1
    (by decide) (by decide)

/-! ### Claim C7: helper lemmas about the stable descending sort and the
selected dequeue key -/

theorem mem_insertBySizeDesc {size : Str → ℕ} {x k : Str} {l : List Str} :
    k ∈ TrajectoryQueue.insertBySizeDesc size x l ↔ k = x ∨ k ∈ l := by
  induction l with
  | nil => simp [TrajectoryQueue.insertBySizeDesc]
  | cons y ys ih =>
    simp only [TrajectoryQueue.insertBySizeDesc]
    split
    · simp only [List.mem_cons, ih]
      tauto
    · simp only [List.mem_cons]

theorem mem_sortBySizeDesc {size : Str → ℕ} {k : Str} {l : List Str} :
    k ∈ TrajectoryQueue.sortBySizeDesc size l ↔ k ∈ l := by
  induction l with
  | nil => simp [TrajectoryQueue.sortBySizeDesc]
  | cons x xs ih => simp [TrajectoryQueue.sortBySizeDesc, mem_insertBySizeDesc, ih]

theorem pairwise_insertBySizeDesc {size : Str → ℕ} {x : Str} {l : List Str}
    (h : l.Pairwise (fun a b => size b ≤ size a)) :
    (TrajectoryQueue.insertBySizeDesc size x l).Pairwise (fun a b => size b ≤ size a) := by
  induction l with
  | nil => simp [TrajectoryQueue.insertBySizeDesc]
  | cons y ys ih =>
    rw [List.pairwise_cons] at h
    simp only [TrajectoryQueue.insertBySizeDesc]
    split
    · rename_i hlt
      rw [List.pairwise_cons]
      refine ⟨fun b hb => ?_, ih h.2⟩
      rcases mem_insertBySizeDesc.1 hb with rfl | hb
      · omega
      · exact h.1 b hb
    · rename_i hge
      rw [List.pairwise_cons]
      refine ⟨fun b hb => ?_, List.pairwise_cons.2 h⟩
      rcases List.mem_cons.1 hb with rfl | hb
      · omega
      · have := h.1 b hb
        omega

theorem pairwise_sortBySizeDesc (size : Str → ℕ) (l : List Str) :
    (TrajectoryQueue.sortBySizeDesc size l).Pairwise (fun a b => size b ≤ size a) := by
  induction l with
  | nil => simp [TrajectoryQueue.sortBySizeDesc]
  | cons x xs ih => exact pairwise_insertBySizeDesc ih

theorem mem_non_empty_queues {α : Type} {q : TrajectoryQueue.QueueState α} {k : Str} :
    k ∈ TrajectoryQueue.non_empty_queues q ↔
      k ∈ q.map (fun kv => kv.1) ∧ 0 < TrajectoryQueue.qsizeOf q k := by
  simp [TrajectoryQueue.non_empty_queues, mem_sortBySizeDesc, List.mem_filter]

theorem non_empty_queues_head_max {α : Type} {q : TrajectoryQueue.QueueState α}
    {k₀ : Str} {restKeys : List Str}
    (h : TrajectoryQueue.non_empty_queues q = k₀ :: restKeys) {k : Str}
    (hk : k ∈ TrajectoryQueue.non_empty_queues q) :
    TrajectoryQueue.qsizeOf q k ≤ TrajectoryQueue.qsizeOf q k₀ := by
  have hp := pairwise_sortBySizeDesc (TrajectoryQueue.qsizeOf q)
    ((q.map (fun kv => kv.1)).filter (fun key => decide (0 < TrajectoryQueue.qsizeOf q key)))
  rw [show TrajectoryQueue.sortBySizeDesc (TrajectoryQueue.qsizeOf q)
      ((q.map (fun kv => kv.1)).filter (fun key => decide (0 < TrajectoryQueue.qsizeOf q key)))
      = TrajectoryQueue.non_empty_queues q from rfl, h] at hp
  rw [h] at hk
  rcases List.mem_cons.1 hk with rfl | hk
  · exact le_refl _
  · exact (List.pairwise_cons.1 hp).1 k hk

theorem non_empty_queues_eq_nil {α : Type} {q : TrajectoryQueue.QueueState α}
    (h : ∀ kv ∈ q, kv.2 = ([] : List α)) : TrajectoryQueue.non_empty_queues q = [] := by
  have hf : (q.map (fun kv => kv.1)).filter
      (fun key => decide (0 < TrajectoryQueue.qsizeOf q key)) = [] := by
    rw [List.filter_eq_nil_iff]
    intro k hk
    simp only [decide_eq_true_eq, not_lt, Nat.le_zero]
    unfold TrajectoryQueue.qsizeOf
    cases hfind : assocFind? q k with
    | none => simp
    | some v =>
      unfold assocFind? at hfind
      rcases Option.map_eq_some'.1 hfind with ⟨kv, hkv, rfl⟩
      have := h kv (List.mem_of_find?_eq_some hkv)
      simp [this]
  unfold TrajectoryQueue.non_empty_queues
  rw [hf]
  rfl

theorem get_of_non_empty {α : Type} {q : TrajectoryQueue.QueueState α} {k₀ : Str}
    {restKeys : List Str} (hne : TrajectoryQueue.non_empty_queues q = k₀ :: restKeys)
    (pref? : Option Str) :
    TrajectoryQueue.get q pref?
      = TrajectoryQueue.dequeueFrom q (TrajectoryQueue.chooseKey k₀ restKeys pref?) := by
  unfold TrajectoryQueue.get
  rw [hne]

theorem dequeueFrom_cons {α : Type} {q : TrajectoryQueue.QueueState α} {key : Str}
    {j : α} {rest : List α} (hb : (assocFind? q key).getD [] = j :: rest) :
    TrajectoryQueue.dequeueFrom q key = (some (j, key), assocSet q key rest) := by
  unfold TrajectoryQueue.dequeueFrom
  rw [hb]

theorem backlog_cons_of_pos {α : Type} {q : TrajectoryQueue.QueueState α} {k : Str}
    (hpos : 0 < TrajectoryQueue.qsizeOf q k) :
    ∃ j rest, (assocFind? q k).getD [] = j :: rest := by
  unfold TrajectoryQueue.qsizeOf at hpos
  cases hb : (assocFind? q k).getD [] with
  | nil => rw [hb] at hpos; simp at hpos
  | cons j rest => exact ⟨j, rest, rfl⟩

theorem chooseKey_mem {α : Type} {q : TrajectoryQueue.QueueState α} {k₀ : Str}
    {restKeys : List Str} (hne : TrajectoryQueue.non_empty_queues q = k₀ :: restKeys)
    (pref? : Option Str) :
    TrajectoryQueue.chooseKey k₀ restKeys pref? ∈ TrajectoryQueue.non_empty_queues q := by
  rw [hne]
  cases pref? with
  | none => exact List.mem_cons_self k₀ restKeys
  | some kp =>
    simp only [TrajectoryQueue.chooseKey]
    split
    · assumption
    · exact List.mem_cons_self k₀ restKeys

/-- C7: behaviour of `TrajectoryQueue.get(preferred_key)`:
(i) when every per-key backlog is empty it returns the queue-exhausted
sentinel `(None, None)` and leaves the queue unchanged;
(ii) when the preferred key is supplied and its backlog is non-empty, it
dequeues the oldest (front) job of that key's FIFO backlog;
(iii) otherwise (no preferred key, or the preferred key no longer among the
non-empty keys) it dequeues the oldest job of the key with the largest
backlog;
(iv) a returned job never comes from an empty key. -/
theorem c7_get_policy {α : Type} (q : TrajectoryQueue.QueueState α) (pref? : Option Str) :
    ((∀ kv ∈ q, kv.2 = ([] : List α)) → TrajectoryQueue.get q pref? = (none, q)) ∧
    (∀ k, pref? = some k → k ∈ q.map (fun kv => kv.1) → 0 < TrajectoryQueue.qsizeOf q k →
      ∃ j rest, (assocFind? q k).getD [] = j :: rest ∧
        TrajectoryQueue.get q pref? = (some (j, k), assocSet q k rest)) ∧
    (∀ k₀ restKeys, TrajectoryQueue.non_empty_queues q = k₀ :: restKeys →
      (pref? = none ∨ ∀ p, pref? = some p → p ∉ TrajectoryQueue.non_empty_queues q) →
      0 < TrajectoryQueue.qsizeOf q k₀ ∧
        (∀ k' ∈ q.map (fun kv => kv.1),
          TrajectoryQueue.qsizeOf q k' ≤ TrajectoryQueue.qsizeOf q k₀) ∧
        ∃ j rest, (assocFind? q k₀).getD [] = j :: rest ∧
          TrajectoryQueue.get q pref? = (some (j, k₀), assocSet q k₀ rest)) ∧
    (∀ j k st', TrajectoryQueue.get q pref? = (some (j, k), st') →
      0 < TrajectoryQueue.qsizeOf q k) := by
  refine ⟨?_, ?_, ?_, ?_⟩
  · intro h
    unfold TrajectoryQueue.get
    rw [non_empty_queues_eq_nil h]
  · intro k hpref hkmem hkpos
    have hkne : k ∈ TrajectoryQueue.non_empty_queues q := mem_non_empty_queues.2 ⟨hkmem, hkpos⟩
    rcases hne : TrajectoryQueue.non_empty_queues q with _ | ⟨k₀, restKeys⟩
    · rw [hne] at hkne
      exact absurd hkne (List.not_mem_nil k)
    · rw [hne] at hkne
      obtain ⟨j, rest, hb⟩ := backlog_cons_of_pos hkpos
      refine ⟨j, rest, hb, ?_⟩
      rw [get_of_non_empty hne, hpref]
      have hck : TrajectoryQueue.chooseKey k₀ restKeys (some k) = k := by
        simp [TrajectoryQueue.chooseKey, hkne]
      rw [hck, dequeueFrom_cons hb]
  · intro k₀ restKeys hne hpref
    have hk₀ : k₀ ∈ TrajectoryQueue.non_empty_queues q := by
      rw [hne]; exact List.mem_cons_self k₀ restKeys
    have hk₀pos := (mem_non_empty_queues.1 hk₀).2
    refine ⟨hk₀pos, ?_, ?_⟩
    · intro k' hk'
      rcases Nat.eq_zero_or_pos (TrajectoryQueue.qsizeOf q k') with hz | hpos
      · omega
      · exact non_empty_queues_head_max hne (mem_non_empty_queues.2 ⟨hk', hpos⟩)
    · obtain ⟨j, rest, hb⟩ := backlog_cons_of_pos hk₀pos
      refine ⟨j, rest, hb, ?_⟩
      rw [get_of_non_empty hne]
      have hck : TrajectoryQueue.chooseKey k₀ restKeys pref? = k₀ := by
        rcases hpref with rfl | hnot
        · rfl
        · cases pref? with
          | none => rfl
          | some p =>
            have hp : p ∉ k₀ :: restKeys := by
              rw [← hne]; exact hnot p rfl
            simp [TrajectoryQueue.chooseKey, hp]
      rw [hck, dequeueFrom_cons hb]
  · intro j k st' hget
    rcases hne : TrajectoryQueue.non_empty_queues q with _ | ⟨k₀, restKeys⟩
    · unfold TrajectoryQueue.get at hget
      rw [hne] at hget
      simp at hget
    · rw [get_of_non_empty hne] at hget
      have hkeymem := chooseKey_mem hne pref?
      unfold TrajectoryQueue.dequeueFrom at hget
      cases hb : (assocFind? q (TrajectoryQueue.chooseKey k₀ restKeys pref?)).getD [] with
      | nil =>
        rw [hb] at hget
        simp at hget
      | cons j' rest =>
        rw [hb] at hget
        simp only [Prod.mk.injEq, Option.some.injEq] at hget
        obtain ⟨⟨hj, hk⟩, hst⟩ := hget
        subst hk
        exact (mem_non_empty_queues.1 hkeymem).2

/-- Witness for C7, via part (iv): on the concrete queue
`{"a": [1, 2], "b": [3]}` with no preferred key, `get` returns job `1` from
key `"a"` (the largest backlog), whose backlog is indeed non-empty. -/
theorem c7_get_policy_witness :
    0 < TrajectoryQueue.qsizeOf [(("a".data : Str), [1, 2]), ("b".data, [3])] "a".data :=
  (c7_get_policy [("a".data, [1, 2]), ("b".data, [3])] none).2.2.2 1 "a".data
    [("a".data, [2]), ("b".data, [3])] (by decide)

/-! ### Claims C2 and C4: helper lemmas about the history store and
`create_state` -/
theorem Store.read_write_ne {store : Environment.Store} {ref r : ℕ} (hr : r ≠ ref)
    (h : List Environment.Message) :
    Environment.Store.read (Environment.Store.write store ref h) r
      = Environment.Store.read store r := by
  unfold Environment.Store.read Environment.Store.write
  rw [List.getElem?_set_ne (Ne.symm hr)]

theorem Store.read_push_ne {store : Environment.Store} {ref r : ℕ} (hr : r ≠ ref)
    (m : Environment.Message) :
    Environment.Store.read (Environment.Store.push store ref m) r
      = Environment.Store.read store r := by
  unfold Environment.Store.push
  exact Store.read_write_ne hr _

theorem Store.read_append_left {store : Environment.Store} {r : ℕ}
    (hr : r < store.length) (h : List Environment.Message) :
    Environment.Store.read (store ++ [h]) r = Environment.Store.read store r := by
  unfold Environment.Store.read
  rw [List.getElem?_append, if_pos hr]

theorem scriptedLoop_preserves {env : Environment.Env} {coin : ℕ → Bool}
    {state_name : Str} {ref r : ℕ} (hr : r ≠ ref)
    (msgs : List (ℕ × (Str × Environment.Template))) :
    ∀ {store : Environment.Store} {fmtVars store' : _} {fmtVars' : List (Str × Str)},
    Environment.scriptedLoop env coin state_name ref msgs store fmtVars
      = Except.ok (store', fmtVars') →
    Environment.Store.read store' r = Environment.Store.read store r := by
  induction msgs with
  | nil =>
    intro store fmtVars store' fmtVars' h
    unfold Environment.scriptedLoop at h
    simp only [Except.ok.injEq, Prod.mk.injEq] at h
    rw [h.1]
  | cons m rest ih =>
    intro store fmtVars store' fmtVars' h
    obtain ⟨i, role, tmpl⟩ := m
    unfold Environment.scriptedLoop at h
    split at h
    · exact absurd h (by simp)
    · split at h
      · exact absurd h (by simp)
      · split at h
        · exact absurd h (by simp)
        · rw [ih h, Store.read_push_ne hr]

theorem create_state_preserves {env : Environment.Env} {coin : ℕ → Bool}
    {store : Environment.Store} {state_name : Str} {turns ref : ℕ}
    {store' : Environment.Store} {st' : Environment.State} {r : ℕ} (hr : r ≠ ref)
    (h : Environment.create_state env coin store state_name turns ref
      = Except.ok (store', st')) :
    Environment.Store.read store' r = Environment.Store.read store r := by
  unfold Environment.create_state at h
  split at h
  · exact absurd h (by simp)
  · split at h
    · exact absurd h (by simp)
    · rename_i sdef _ store2 fmtVars2 hloop
      simp only [Except.ok.injEq, Prod.mk.injEq] at h
      obtain ⟨rfl, _⟩ := h
      exact scriptedLoop_preserves hr _ hloop

theorem create_state_fields {env : Environment.Env} {coin : ℕ → Bool}
    {store : Environment.Store} {state_name : Str} {turns ref : ℕ}
    {store' : Environment.Store} {st' : Environment.State}
    (h : Environment.create_state env coin store state_name turns ref
      = Except.ok (store', st')) :
    st'.turns = turns ∧ st'.historyRef = ref ∧ st'.name = state_name := by
  unfold Environment.create_state at h
  split at h
  · exact absurd h (by simp)
  · split at h
    · exact absurd h (by simp)
    · simp only [Except.ok.injEq, Prod.mk.injEq] at h
      obtain ⟨_, rfl⟩ := h
      exact ⟨rfl, rfl, rfl⟩

theorem resolvedTransition_default (state : Environment.State) :
    Environment.resolvedTransition state state.default_transition
      = state.default_transition := by
  unfold Environment.resolvedTransition
  split <;> rfl

/-- C2: `post_transition_processing` substitutes the state's default
transition when the label is not a key of `valid_transitions` (first
conjunct); when the resolved transition's `next_state` equals the current
state's name it returns a copy of the current state with `turns` incremented
(second conjunct, self-loop case); otherwise it returns `create_state`
applied to the target name with `turns = turns + 1` and a fresh deep copy of
the current history (second conjunct, non-self-loop case); and in every
non-raising case the returned state's turn count is exactly the input's plus
one (third conjunct). -/
theorem c2_advance_turn_semantics (env : Environment.Env) (coin : ℕ → Bool)
    (store : Environment.Store) (state : Environment.State) (label : Str) :
    (assocFind? state.valid_transitions label = none →
      Environment.post_transition_processing env coin store state label
        = Environment.post_transition_processing env coin store state
            state.default_transition) ∧
    (∀ nextName, assocFind? state.valid_transitions
        (Environment.resolvedTransition state label) = some nextName →
      (nextName = state.name →
        Environment.post_transition_processing env coin store state label
          = Except.ok (store,
              { Environment.State.copy state with turns := state.turns + 1 })) ∧
      (nextName ≠ state.name →
        Environment.post_transition_processing env coin store state label
          = Environment.create_state env coin
              (store ++ [Environment.Store.read store state.historyRef]) nextName
              (state.turns + 1) store.length)) ∧
    (∀ store' state',
      Environment.post_transition_processing env coin store state label
        = Except.ok (store', state') → state'.turns = state.turns + 1) := by
  refine ⟨?_, ?_, ?_⟩
  · intro hnone
    have hres : Environment.resolvedTransition state label = state.default_transition := by
      unfold Environment.resolvedTransition
      rw [hnone]
      rfl
    unfold Environment.post_transition_processing
    rw [hres, resolvedTransition_default]
  · intro nextName hfind
    constructor
    · intro heq
      subst heq
      unfold Environment.post_transition_processing
      simp only [hfind, beq_self_eq_true, if_true]
      rfl
    · intro hne
      unfold Environment.post_transition_processing
      simp only [hfind]
      rw [if_neg (by simpa using hne)]
      rfl
  · intro store' state' h
    unfold Environment.post_transition_processing at h
    cases hfind : assocFind? state.valid_transitions
        (Environment.resolvedTransition state label) with
    | none => rw [hfind] at h; exact absurd h (by simp)
    | some nextName =>
      simp only [hfind] at h
      split at h
      · simp only [Except.ok.injEq, Prod.mk.injEq] at h
        obtain ⟨_, rfl⟩ := h
        rfl
      · exact (create_state_fields h).1

/-- Witness for C2, via the third conjunct: advancing `demoFinalState` (turn
count 1) with the unknown label `"nope"` substitutes the default transition
`"stay"`, a self-loop, and the returned state's turn count is 2. -/
theorem c2_advance_turn_semantics_witness :
    ({ demoFinalState with turns := 2 } : Environment.State).turns
      = demoFinalState.turns + 1 :=
  (c2_advance_turn_semantics demoEnv (fun _ => true) demoStoreAfter demoFinalState
      "nope".data).2.2 demoStoreAfter { demoFinalState with turns := 2 } (by decide)

/-- C4: after a non-self-loop transition the new state's history cell is a
different cell than the predecessor's, the predecessor's history snapshot is
unchanged by the transition, and any overwrite of the new state's cell leaves
the predecessor's cell untouched (first conjunct); a self-loop leaves the
store untouched, keeps the same history cell, and in particular preserves the
history length (second conjunct). -/
theorem c4_history_isolation (env : Environment.Env) (coin : ℕ → Bool)
    (store : Environment.Store) (state : Environment.State) (label : Str)
    (href : state.historyRef < store.length) :
    (∀ nextName, assocFind? state.valid_transitions
        (Environment.resolvedTransition state label) = some nextName →
      nextName ≠ state.name →
      ∀ store' state', Environment.post_transition_processing env coin store state label
          = Except.ok (store', state') →
        state'.historyRef ≠ state.historyRef ∧
        Environment.Store.read store' state.historyRef
          = Environment.Store.read store state.historyRef ∧
        ∀ ms, Environment.Store.read
            (Environment.Store.write store' state'.historyRef ms) state.historyRef
          = Environment.Store.read store' state.historyRef) ∧
    (∀ nextName, assocFind? state.valid_transitions
        (Environment.resolvedTransition state label) = some nextName →
      nextName = state.name →
      ∀ store' state', Environment.post_transition_processing env coin store state label
          = Except.ok (store', state') →
        store' = store ∧ state'.historyRef = state.historyRef ∧
        (Environment.Store.read store' state'.historyRef).length
          = (Environment.Store.read store state.historyRef).length) := by
  constructor
  · intro nextName hfind hne store' state' h
    unfold Environment.post_transition_processing at h
    simp only [hfind] at h
    rw [if_neg (by simpa using hne)] at h
    simp only [Environment.Store.alloc] at h
    have hfields := create_state_fields h
    have hrefNe : state'.historyRef ≠ state.historyRef := by
      rw [hfields.2.1]
      omega
    refine ⟨hrefNe, ?_, ?_⟩
    · have hrne : state.historyRef ≠ store.length := by omega
      have hpres := create_state_preserves hrne h
      rw [hpres]
      exact Store.read_append_left href _
    · intro ms
      exact Store.read_write_ne (Ne.symm hrefNe) ms
  · intro nextName hfind heq store' state' h
    subst heq
    unfold Environment.post_transition_processing at h
    simp only [hfind, beq_self_eq_true, if_true, Except.ok.injEq, Prod.mk.injEq] at h
    obtain ⟨rfl, rfl⟩ := h
    exact ⟨rfl, rfl, rfl⟩
/-- Witness for C4: advancing `demoState` with `"yes"` (a non-self-loop into
`final`) yields a state owning cell 1 ≠ cell 0, and cell 0's snapshot is
unchanged. -/
theorem c4_history_isolation_witness :
    demoFinalState.historyRef ≠ demoState.historyRef ∧
      Environment.Store.read demoStoreAfter demoState.historyRef
        = Environment.Store.read demoStore demoState.historyRef := by
  have h := (c4_history_isolation demoEnv (fun _ => true) demoStore demoState "yes".data
      (by decide)).1 "final".data (by decide) (by decide) demoStoreAfter demoFinalState
      (by decide)
  exact ⟨h.1, h.2.1⟩

/-! ### Claim C5 -/

/-- All-nonnegative rationals summing to zero are all zero. -/
theorem list_sum_zero_of_nonneg {l : List ℚ} (h0 : ∀ x ∈ l, 0 ≤ x) (hs : l.sum = 0) :
    ∀ x ∈ l, x = 0 := by
  induction l with
  | nil => simp
  | cons a t ih =>
    have hta : 0 ≤ a := h0 a (List.mem_cons_self _ _)
    have htt : ∀ x ∈ t, 0 ≤ x := fun x hx => h0 x (List.mem_cons_of_mem _ hx)
    have hts : 0 ≤ t.sum := List.sum_nonneg htt
    rw [List.sum_cons] at hs
    have ha : a = 0 := by linarith
    have ht : t.sum = 0 := by linarith
    intro x hx
    rcases List.mem_cons.1 hx with rfl | hx
    · exact ha
    · exact ih htt ht x hx

/-- C5: `restrictAndNormalize` (the final step of
`_async_get_next_token_probs_normalized`) builds its result over exactly the
given `valid_tokens` (first conjunct); a valid token absent from the merged
top-5 masses gets probability 0 (second conjunct); when the restricted total
is positive every entry is divided by it and the result sums to 1 (third
conjunct); when the total is 0 (with nonnegative masses) the all-zero
distribution is returned with no division (fourth conjunct); and in
particular valid tokens `{"1","2","3"}` with top-5 mass
`{"2": 0.6, "3": 0.3, "x": 0.1}` yield
`{"1": 0, "2": (6/10)/(9/10) = 2/3, "3": (3/10)/(9/10) = 1/3}` (fifth
conjunct). -/
theorem c5_restrict_and_normalize (tokenProbs : List (Str × ℚ)) (validTokens : List Str) :
    ((OpenAIBackend.restrictAndNormalize tokenProbs validTokens).map (fun kv => kv.1)
        = validTokens) ∧
    (∀ kv ∈ OpenAIBackend.restrictAndNormalize tokenProbs validTokens,
      assocFind? tokenProbs kv.1 = none → kv.2 = 0) ∧
    (0 < OpenAIBackend.restrictedTotal tokenProbs validTokens →
      OpenAIBackend.restrictAndNormalize tokenProbs validTokens
          = (OpenAIBackend.validProbsOf tokenProbs validTokens).map
              (fun kv =>
                (kv.1, kv.2 / OpenAIBackend.restrictedTotal tokenProbs validTokens)) ∧
        ((OpenAIBackend.restrictAndNormalize tokenProbs validTokens).map
            (fun kv => kv.2)).sum = 1) ∧
    (OpenAIBackend.restrictedTotal tokenProbs validTokens = 0 →
      (∀ kv ∈ tokenProbs, 0 ≤ kv.2) →
      ∀ kv ∈ OpenAIBackend.restrictAndNormalize tokenProbs validTokens, kv.2 = 0) ∧
    OpenAIBackend.restrictAndNormalize
        (OpenAIBackend.mergeTokenProbs
          [("2".data, 6/10), ("3".data, 3/10), ("x".data, 1/10)])
        ["1".data, "2".data, "3".data]
      = [("1".data, 0), ("2".data, 2/3), ("3".data, 1/3)] := by
  refine ⟨?_, ?_, ?_, ?_, ?_⟩
  · unfold OpenAIBackend.restrictAndNormalize
    split <;> simp [OpenAIBackend.validProbsOf, List.map_map, Function.comp_def]
  · intro kv hkv hnone
    unfold OpenAIBackend.restrictAndNormalize at hkv
    split at hkv
    · obtain ⟨kv2, hkv2, rfl⟩ := List.mem_map.1 hkv
      obtain ⟨k, hk, rfl⟩ := List.mem_map.1 hkv2
      simp only at hnone ⊢
      rw [hnone]
      simp
    · obtain ⟨k, hk, rfl⟩ := List.mem_map.1 hkv
      simp only at hnone ⊢
      rw [hnone]
      simp
  · intro hpos
    have hres : OpenAIBackend.restrictAndNormalize tokenProbs validTokens
        = (OpenAIBackend.validProbsOf tokenProbs validTokens).map
            (fun kv => (kv.1, kv.2 / OpenAIBackend.restrictedTotal tokenProbs validTokens)) := by
      unfold OpenAIBackend.restrictAndNormalize
      rw [if_pos hpos]
    refine ⟨hres, ?_⟩
    rw [hres, List.map_map]
    simp only [Function.comp_def, div_eq_mul_inv]
    rw [List.sum_map_mul_right]
    exact mul_inv_cancel₀ (ne_of_gt hpos)
  · intro h0 hnn kv hkv
    unfold OpenAIBackend.restrictAndNormalize at hkv
    rw [if_neg (by rw [h0]; exact lt_irrefl 0)] at hkv
    have hvals : ∀ x ∈ (OpenAIBackend.validProbsOf tokenProbs validTokens).map
        (fun kv => kv.2), 0 ≤ x := by
      intro x hx
      obtain ⟨kv2, hkv2, rfl⟩ := List.mem_map.1 hx
      obtain ⟨k, hk, rfl⟩ := List.mem_map.1 hkv2
      simp only
      cases hfind : assocFind? tokenProbs k with
      | none => simp [hfind]
      | some v =>
        simp only [hfind, Option.getD_some]
        unfold assocFind? at hfind
        obtain ⟨kv3, hkv3, rfl⟩ := Option.map_eq_some'.1 hfind
        exact hnn kv3 (List.mem_of_find?_eq_some hkv3)
    exact list_sum_zero_of_nonneg hvals h0 kv.2 (List.mem_map_of_mem _ hkv)
  · have hm : OpenAIBackend.mergeTokenProbs
        [("2".data, 6/10), ("3".data, 3/10), ("x".data, 1/10)]
        = [("2".data, (6/10 : ℚ)), ("3".data, 3/10), ("x".data, 1/10)] := rfl
    have hv : OpenAIBackend.validProbsOf
        [("2".data, (6/10 : ℚ)), ("3".data, 3/10), ("x".data, 1/10)]
        ["1".data, "2".data, "3".data]
        = [("1".data, (0 : ℚ)), ("2".data, 6/10), ("3".data, 3/10)] := rfl
    have ht : OpenAIBackend.restrictedTotal
        [("2".data, (6/10 : ℚ)), ("3".data, 3/10), ("x".data, 1/10)]
        ["1".data, "2".data, "3".data] = 9/10 := by
      unfold OpenAIBackend.restrictedTotal
      rw [hv]
      norm_num
    rw [hm]
    unfold OpenAIBackend.restrictAndNormalize
    rw [ht, if_pos (by norm_num), hv]
    norm_num

/-- Witness for C5, via the third conjunct at the claim's concrete example:
the renormalized distribution over `{"1","2","3"}` sums to 1. -/
theorem c5_restrict_and_normalize_witness :
    ((OpenAIBackend.restrictAndNormalize
        (OpenAIBackend.mergeTokenProbs
          [("2".data, 6/10), ("3".data, 3/10), ("x".data, 1/10)])
        ["1".data, "2".data, "3".data]).map (fun kv => kv.2)).sum = 1 := by
  have ht : (0 : ℚ) < OpenAIBackend.restrictedTotal
      (OpenAIBackend.mergeTokenProbs
        [("2".data, 6/10), ("3".data, 3/10), ("x".data, 1/10)])
      ["1".data, "2".data, "3".data] := by
    have hv : OpenAIBackend.validProbsOf
        (OpenAIBackend.mergeTokenProbs
          [("2".data, 6/10), ("3".data, 3/10), ("x".data, 1/10)])
        ["1".data, "2".data, "3".data]
        = [("1".data, (0 : ℚ)), ("2".data, 6/10), ("3".data, 3/10)] := rfl
    unfold OpenAIBackend.restrictedTotal
    rw [hv]
    norm_num
  exact ((c5_restrict_and_normalize
      (OpenAIBackend.mergeTokenProbs
        [("2".data, 6/10), ("3".data, 3/10), ("x".data, 1/10)])
      ["1".data, "2".data, "3".data]).2.2.1 ht).2
/-! ### Claim C8 -/

/-- The bucket invariant `0 ≤ remaining ≤ capacity` is preserved by any
sequence of refills (with nonnegative elapsed time) and acquire attempts
(of nonnegative amounts), and the capacity never changes. -/
theorem runBucketOps_invariant (ops : List OpenAIBackend.BucketOp) :
    ∀ b : OpenAIBackend.Bucket, (∀ op ∈ ops, op.nonneg) →
    0 ≤ b.remaining → b.remaining ≤ b.capacity →
    (OpenAIBackend.runBucketOps b ops).capacity = b.capacity ∧
    0 ≤ (OpenAIBackend.runBucketOps b ops).remaining ∧
    (OpenAIBackend.runBucketOps b ops).remaining
      ≤ (OpenAIBackend.runBucketOps b ops).capacity := by
  induction ops with
  | nil =>
    intro b _ h0 h1
    exact ⟨rfl, h0, h1⟩
  | cons op rest ih =>
    intro b hops h0 h1
    have hop := hops op (List.mem_cons_self _ _)
    have hrest : ∀ o ∈ rest, OpenAIBackend.BucketOp.nonneg o :=
      fun o ho => hops o (List.mem_cons_of_mem _ ho)
    have hcap : 0 ≤ b.capacity := le_trans h0 h1
    cases op with
    | refill t =>
      have hr0 : 0 ≤ (OpenAIBackend.Bucket.refill b t).remaining :=
        le_min hcap (add_nonneg h0 (mul_nonneg hop (div_nonneg hcap (by norm_num))))
      have hr1 : (OpenAIBackend.Bucket.refill b t).remaining
          ≤ (OpenAIBackend.Bucket.refill b t).capacity := min_le_left _ _
      have h3 := ih (OpenAIBackend.Bucket.refill b t) hrest hr0 hr1
      exact ⟨h3.1, h3.2.1, h3.2.2⟩
    | acquire a =>
      have ha0 : 0 ≤ (OpenAIBackend.Bucket.tryAcquire b a).remaining := by
        unfold OpenAIBackend.Bucket.tryAcquire
        split
        · rename_i hle
          simp only
          linarith
        · exact h0
      have ha1 : (OpenAIBackend.Bucket.tryAcquire b a).remaining
          ≤ (OpenAIBackend.Bucket.tryAcquire b a).capacity := by
        unfold OpenAIBackend.Bucket.tryAcquire
        split
        · rename_i hle
          simp only
          have hsub : b.remaining - a ≤ b.remaining := sub_le_self _ hop
          linarith
        · exact h1
      have h3 := ih (OpenAIBackend.Bucket.tryAcquire b a) hrest ha0 ha1
      have hcap2 : (OpenAIBackend.Bucket.tryAcquire b a).capacity = b.capacity := by
        unfold OpenAIBackend.Bucket.tryAcquire
        split <;> rfl
      exact ⟨h3.1.trans hcap2, h3.2.1, h3.2.2⟩

/-- C8: starting from `remaining = capacity ≥ 0`, under every sequence of
refill and acquire operations with nonnegative parameters, the remaining
budget never goes negative and never exceeds the capacity.  This holds for
the request bucket and the token bucket alike (both are instances of
`Bucket`, with `capacity = max_requests_per_minute` resp.
`max_tokens_per_minute`). -/
theorem c8_bucket_bounds (capacity : ℚ) (hcap : 0 ≤ capacity)
    (ops : List OpenAIBackend.BucketOp) (hops : ∀ op ∈ ops, op.nonneg) :
    0 ≤ (OpenAIBackend.runBucketOps ⟨capacity, capacity⟩ ops).remaining ∧
      (OpenAIBackend.runBucketOps ⟨capacity, capacity⟩ ops).remaining ≤ capacity := by
  have h := runBucketOps_invariant ops ⟨capacity, capacity⟩ hops hcap (le_refl _)
  exact ⟨h.2.1, le_trans h.2.2 (le_of_eq h.1)⟩

/-- Witness for C8: capacity 60, acquiring 10 (succeeds), refilling after 1
second, then attempting to acquire 100 (fails, bucket unchanged): the
remaining budget stays within `[0, 60]`. -/
theorem c8_bucket_bounds_witness :
    0 ≤ (OpenAIBackend.runBucketOps ⟨60, 60⟩
        [OpenAIBackend.BucketOp.acquire 10, OpenAIBackend.BucketOp.refill 1,
          OpenAIBackend.BucketOp.acquire 100]).remaining ∧
      (OpenAIBackend.runBucketOps ⟨60, 60⟩
        [OpenAIBackend.BucketOp.acquire 10, OpenAIBackend.BucketOp.refill 1,
          OpenAIBackend.BucketOp.acquire 100]).remaining ≤ 60 :=
  c8_bucket_bounds 60 (by norm_num)
    [OpenAIBackend.BucketOp.acquire 10, OpenAIBackend.BucketOp.refill 1,
      OpenAIBackend.BucketOp.acquire 100]
    (by
      intro op hop
      simp only [List.mem_cons, List.not_mem_nil, or_false] at hop
      rcases hop with rfl | rfl | rfl <;>
        
        norm_num [OpenAIBackend.BucketOp.nonneg])
/-! ### Claim C9 -/

/-- When the marker-scan loop reports an answer position, some non-empty
token-boundary prefix of the response indeed ends with the marker, and the
position is that prefix's token count (one past the marker's last token). -/
theorem findFinalAnswerIndex_some {finalString : Str} (ts : List Str) :
    ∀ {pre : Str} {idx i : ℕ},
    OpenAIBackend.findFinalAnswerIndex finalString pre idx ts = some i →
    ∃ k, 1 ≤ k ∧ k ≤ ts.length ∧ i = idx + k ∧
      Str.pyEndsWith (pre ++ (ts.take k).flatten) finalString = true := by
  induction ts with
  | nil =>
    intro pre idx i h
    exact absurd h (by simp [OpenAIBackend.findFinalAnswerIndex])
  | cons t rest ih =>
    intro pre idx i h
    unfold OpenAIBackend.findFinalAnswerIndex at h
    split at h
    · rename_i hend
      simp only [Option.some.injEq] at h
      refine ⟨1, le_refl 1, by simp, by omega, ?_⟩
      simpa using hend
    · obtain ⟨k, hk1, hkle, hi, hend⟩ := ih h
      refine ⟨k + 1, by omega, by simp only [List.length_cons]; omega, by omega, ?_⟩
      simpa [List.append_assoc] using hend

/-- C9: with chain of thought enabled, when the marker string never ends any
token-boundary prefix of the generated response, or when the computed answer
position falls outside the generated tokens,
`get_token_probs_and_chain_of_thought` returns the empty distribution
together with the raw free-form text, and raises no error. -/
theorem c9_marker_absent_returns_empty (finalString : Str)
    (response : OpenAIBackend.ChatResponse)
    (h : (∀ k, k ≤ response.logprobsContent.length →
        Str.pyEndsWith (((response.logprobsContent.map (fun t => t.token)).take k).flatten)
          finalString = false) ∨
      (∃ i, OpenAIBackend.findFinalAnswerIndex finalString [] 0
          (response.logprobsContent.map (fun t => t.token)) = some i ∧
        response.logprobsContent.length ≤ i)) :
    OpenAIBackend.get_token_probs_and_chain_of_thought finalString response true
      = Except.ok ([], response.content) := by
  unfold OpenAIBackend.get_token_probs_and_chain_of_thought
  rw [if_pos rfl]
  rcases h with hno | ⟨i, hfind, hout⟩
  · have hnone : OpenAIBackend.findFinalAnswerIndex finalString [] 0
        (response.logprobsContent.map (fun t => t.token)) = none := by
      cases hf : OpenAIBackend.findFinalAnswerIndex finalString [] 0
          (response.logprobsContent.map (fun t => t.token)) with
      | none => rfl
      | some i =>
        obtain ⟨k, hk1, hkle, hi, hend⟩ := findFinalAnswerIndex_some _ hf
        rw [List.nil_append] at hend
        have hk2 : k ≤ response.logprobsContent.length := by
          simpa using hkle
        rw [hno k hk2] at hend
        exact absurd hend (by simp)
    simp [hnone]
  · have hext : OpenAIBackend.extractAt response i response.content
        = Except.ok ([], response.content) := by
      unfold OpenAIBackend.extractAt
      rw [if_pos hout]
    simp [hfind, hext]

/-- Witness for C9: marker `"xyz"`, response text `"abc"` with tokens
`["a", "b"]`: no prefix ends with the marker, so the result is the empty
distribution with the raw text. -/
theorem c9_marker_absent_returns_empty_witness :
    OpenAIBackend.get_token_probs_and_chain_of_thought "xyz".data
        ⟨"abc".data, [⟨"a".data, []⟩, ⟨"b".data, []⟩]⟩ true
      = Except.ok ([], "abc".data) :=
  c9_marker_absent_returns_empty "xyz".data
    ⟨"abc".data, [⟨"a".data, []⟩, ⟨"b".data, []⟩]⟩
    (Or.inl (by decide))

/-! ### Claim C10 -/

/-- C10: whenever the probability-extraction step is reached it reads exactly
the first five `top_logprobs` entries unconditionally: with at least 5
entries it returns the lower-cased/stripped/merged masses of exactly the
first five (first conjunct); with fewer than 5 entries it is an
out-of-bounds `IndexError` (second conjunct); in particular a response whose
answer position carries only 3 top-logprob entries makes
`get_token_probs_and_chain_of_thought` raise `IndexError` (third conjunct). -/
theorem c10_top5_unconditional (top : List OpenAIBackend.TokenLogprob) :
    (5 ≤ top.length →
      OpenAIBackend.extractTokenProbs top
        = Except.ok (OpenAIBackend.mergeTokenProbs
            ((top.take 5).map (fun tl => (tl.token, tl.prob))))) ∧
    (top.length < 5 →
      OpenAIBackend.extractTokenProbs top
        = Except.error "IndexError: list index out of range".data) ∧
    OpenAIBackend.get_token_probs_and_chain_of_thought []
        ⟨[], [⟨"a".data, [⟨"p".data, 1⟩, ⟨"q".data, 1⟩, ⟨"r".data, 1⟩]⟩]⟩
        false
      = Except.error "IndexError: list index out of range".data := by
  refine ⟨?_, ?_, ?_⟩
  · intro h
    rcases top with _ | ⟨a, _ | ⟨b, _ | ⟨c, _ | ⟨d, _ | ⟨e, rest⟩⟩⟩⟩⟩ <;>
      first
        | rfl
        | simp at h
  · intro h
    rcases top with _ | ⟨a, _ | ⟨b, _ | ⟨c, _ | ⟨d, _ | ⟨e, rest⟩⟩⟩⟩⟩ <;>
      first
        | rfl
        | (simp at h; omega)
  · rfl

/-- Witness for C10, via the second conjunct: a 3-entry `top_logprobs` list
makes the extraction loop go out of bounds. -/
theorem c10_top5_unconditional_witness :
    OpenAIBackend.extractTokenProbs [⟨"p".data, 1⟩, ⟨"q".data, 1⟩, ⟨"r".data, 1⟩]
      = Except.error "IndexError: list index out of range".data :=
  (c10_top5_unconditional [⟨"p".data, 1⟩, ⟨"q".data, 1⟩, ⟨"r".data, 1⟩]).2.1 (by decide)

end InfluenceBenchmark
